import Mathlib

/-!
Shallow embedding of the `Builder` derive macro from `src/builder/src/lib.rs`,
together with an operational model of the code that the macro emits.

The first part mirrors, definition by definition, the generator functions of
the source file: `is_optional`, `is_builder_field`, `is_builder_attr`,
`builder_attr_each`, `optional_inner_ty`, `extract_fields`, `builder_fields`,
`builder_setters`, `builder_defaults` and the two pieces of `builder_build`
(the missing-value checkers and the drain plan).  Rust panics
(`unwrap`/`assert!`/`unreachable!`) are modelled as `none` / `Except.error`.

The second part gives the runtime semantics of the emitted builder: its
storage state, the zero-value initializer, the setter mutations, and `build`
(validation, drain, construction), parameterized over an arbitrary value
type `α` standing for the values stored in the fields.
-/

namespace BuilderMacro

/-- Model of `syn::Type` restricted to what the source inspects: a type path
is a list of segments, each an identifier with optional angle-bracketed
generic arguments (`none` models `PathArguments::None`). -/
inductive TypeExpr where
  | path : List (String × Option (List TypeExpr)) → TypeExpr
  | other : TypeExpr

/-- Model of `syn::Lit` restricted to the cases the source matches. -/
inductive Lit where
  | str : String → Lit
  | otherLit : Lit
deriving DecidableEq, Repr

/-- Model of `syn::NestedMeta`: the source only ever matches
`NestedMeta::Meta(Meta::NameValue(nv))`, so that case is kept structured
(path of the key, literal value) and everything else is collapsed. -/
inductive NestedMeta where
  | nameValue : List String → Lit → NestedMeta
  | otherNested : NestedMeta
deriving DecidableEq, Repr

/-- Model of `syn::Meta` as produced by `attr.parse_meta()`: the source only
distinguishes `Meta::List { path, nested }` from everything else. -/
inductive Meta where
  | list : List String → List NestedMeta → Meta
  | otherMeta : Meta
deriving DecidableEq, Repr

/-- Model of `syn::Field` for a named field: identifier, visibility,
declared type, and the attached attributes (already parsed to `Meta`,
since the source immediately calls `parse_meta().unwrap()` on each). -/
structure Field where
  name : String
  vis : String
  ty : TypeExpr
  attrs : List Meta

/-- Model of `syn::Fields`. -/
inductive FieldsShape where
  | named : List Field → FieldsShape
  | unnamed : List Field → FieldsShape
  | unit : FieldsShape

/-- Model of `syn::Data`. -/
inductive Data where
  | dstruct : FieldsShape → Data
  | denum : Data
  | dunion : Data

/-- Model of `syn::DeriveInput`. -/
structure DeriveInput where
  ident : String
  data : Data

/-- Source `is_builder_attr`: the parsed meta is `Meta::List` whose path's
first segment identifier is `builder`.  (`path.segments.first().unwrap()`
can only be reached with a nonempty path; `head?` returns `none` there,
making the comparison false.) -/
def is_builder_attr (m : Meta) : Bool :=
  match m with
  | .list path _ => path.head? = some "builder"
  | .otherMeta => false

/-- Source `is_builder_field`: some attribute of the field is a builder
attribute. -/
def is_builder_field (f : Field) : Bool :=
  f.attrs.any is_builder_attr

/-- Source `is_optional`: the declared type is a path whose FIRST segment
identifier is `Option`. -/
def is_optional (f : Field) : Bool :=
  match f.ty with
  | .path segs =>
    match segs.head? with
    | some seg => seg.1 = "Option"
    | none => false
  | .other => false

/-- Source `optional_inner_ty`: asserts the path has exactly one segment and
angle-bracketed arguments, returning the argument list (the source splices
the whole `args` list back into the setter signature).  All panicking paths
(`assert_eq!`, `unreachable!`) are `none`. -/
def optional_inner_ty (f : Field) : Option (List TypeExpr) :=
  match f.ty with
  | .path [seg] =>
    match seg.2 with
    | some args => some args
    | none => none
  | _ => none

/-- Source `builder_attr_each`: scan the attributes in order; on the first
`Meta::List` whose path head is `builder`, assert a single nested meta which
must be a name/value pair with a string literal, and return that literal's
value (the appender identifier).  The key of the pair is never compared to
`each` (that check is commented out in the source).  Panics are `none`. -/
def builder_attr_each (f : Field) : Option String :=
  firstBuilderEach f.attrs
where
  /-- Helper iterating the attribute list like the source's `for` loop. -/
  firstBuilderEach : List Meta → Option String
  | [] => none
  | .otherMeta :: rest => firstBuilderEach rest
  | .list path nested :: rest =>
    if path.head? = some "builder" then
      match nested with
      | [.nameValue _ (.str s)] => some s
      | _ => none
    else
      firstBuilderEach rest

/-- Source `extract_fields`: only a struct with named fields is accepted;
every other shape hits `unreachable!()`, which aborts the macro expansion. -/
def extract_fields (input : DeriveInput) : Except String (List Field) :=
  match input.data with
  | .dstruct (.named fs) => .ok fs
  | .dstruct _ => .error "unreachable: only structs with named fields are supported"
  | _ => .error "unreachable: only structs are supported"

/-- The storage type the generator emits for one builder field:
either the declared type spliced unchanged (`quote! { #ty }`) or wrapped
(`quote! { std::option::Option<#ty> }`). -/
inductive StorageTy where
  | raw : TypeExpr → StorageTy
  | optionWrap : TypeExpr → StorageTy

/-- One emitted storage field of the builder struct. -/
structure StorageField where
  vis : String
  name : String
  ty : StorageTy

/-- Source `builder_fields`: for each source field in order, keep the
declared type when `is_optional(f) || is_builder_field(f)`, otherwise wrap
it in `std::option::Option`. -/
def builder_fields (fields : List Field) : List StorageField :=
  fields.map fun f =>
    { vis := f.vis
      name := f.name
      ty := if is_optional f || is_builder_field f then .raw f.ty else .optionWrap f.ty }

/-- The statement inside an emitted setter body:
`assign fld` is `self.fld = std::option::Option::Some(param)`;
`push fld` is `self.fld.push(param)`. -/
inductive SetterAction where
  | assign : String → SetterAction
  | push : String → SetterAction
deriving DecidableEq, Repr

/-- The literal `String` type token the generator hardcodes in the
accumulating-field appender signature. -/
def stringTy : TypeExpr := .path [("String", none)]

/-- One emitted mutator: its method name, the parameter type tokens spliced
into the signature (`optional_inner_ty` returns a whole argument list, hence
a list), and its body.  Every emitted mutator returns `&mut Self` and ends
in `self`, so that part of the template carries no information. -/
structure Setter where
  name : String
  paramTys : List TypeExpr
  action : SetterAction

/-- Source `builder_setters` for one field, mirroring the branch order of
the source exactly: `is_optional` is tested FIRST, then `is_builder_field`,
else the required-field setter.  Panics inside `optional_inner_ty` /
`builder_attr_each` are propagated as `none`. -/
def setter_for (f : Field) : Option Setter :=
  if is_optional f then
    match optional_inner_ty f with
    | some args => some { name := f.name, paramTys := args, action := .assign f.name }
    | none => none
  else if is_builder_field f then
    match builder_attr_each f with
    | some each => some { name := each, paramTys := [stringTy], action := .push f.name }
    | none => none
  else
    some { name := f.name, paramTys := [f.ty], action := .assign f.name }

/-- Source `builder_setters`: one mutator per field, in field order. -/
def builder_setters (fields : List Field) : Option (List Setter) :=
  fields.mapM setter_for

/-- The zero-value initializer the generator emits for one storage field:
`Vec::new()` or `std::option::Option::None`. -/
inductive DefaultInit where
  | vecNew : DefaultInit
  | noneVal : DefaultInit
deriving DecidableEq, Repr

/-- Source `builder_defaults`: `Vec::new()` for builder-attr fields,
`None` for all others, in field order. -/
def builder_defaults (fields : List Field) : List (String × DefaultInit) :=
  fields.map fun f =>
    (f.name, if is_builder_field f then DefaultInit.vecNew else DefaultInit.noneVal)

/-- The drain statement `builder_build` emits for one field's local:
`clone` is `self.f.clone()`; `takeOpt` is
`if self.f.is_some() { self.f.take() } else { None }`;
`takeUnwrap` is `self.f.take().unwrap()`. -/
inductive DrainKind where
  | clone : DrainKind
  | takeOpt : DrainKind
  | takeUnwrap : DrainKind
deriving DecidableEq, Repr

/-- Source `builder_build`, `missing_values_checkers`: the fields checked by
`assert_non_missing_values`, i.e. those with neither `Option` type nor
builder attribute, in field order. -/
def missing_values_checkers (fields : List Field) : List String :=
  (fields.filter fun f => !is_optional f && !is_builder_field f).map Field.name

/-- Source `builder_build`, `locals`: the drain plan, one statement per
field in order; `is_builder_field` is tested FIRST here, then
`is_optional`, else the required unwrap. -/
def build_locals (fields : List Field) : List (String × DrainKind) :=
  fields.map fun f =>
    (f.name,
      if is_builder_field f then DrainKind.clone
      else if is_optional f then DrainKind.takeOpt
      else DrainKind.takeUnwrap)

/-- Everything `derive` emits, as structured data: the builder type name,
its storage fields, the factory's zero-value initializers, the mutators,
the validation list and the drain plan of `build`. -/
structure GeneratedCode where
  builderName : String
  storageFields : List StorageField
  defaults : List (String × DefaultInit)
  setters : List Setter
  checks : List String
  drains : List (String × DrainKind)

/-- Source `derive`: extract the named fields (aborting on any other input
shape), then run the four synthesis stages.  A panic inside setter
synthesis also aborts the expansion, hence the `Except`. -/
def derive (input : DeriveInput) : Except String GeneratedCode := do
  let fields ← extract_fields input
  let setters ←
    match builder_setters fields with
    | some s => Except.ok s
    | none => Except.error "panic during setter synthesis"
  pure
    { builderName := input.ident ++ "Builder"
      storageFields := builder_fields fields
      defaults := builder_defaults fields
      setters := setters
      checks := missing_values_checkers fields
      drains := build_locals fields }

/-- The field-kind classification of the spec (the accumulation annotation
takes priority, then the nullable-wrapper shape, else required). -/
inductive FieldKind where
  | accumulating : FieldKind
  | optionalK : FieldKind
  | requiredK : FieldKind
deriving DecidableEq, Repr

/-- Spec classification with annotation priority (spec section 4.2). -/
def classify (f : Field) : FieldKind :=
  if is_builder_field f then .accumulating
  else if is_optional f then .optionalK
  else .requiredK

/-- The element type of a sequence-shaped declared type such as `Vec<E>`:
its single angle-bracketed argument.  Used only to state what the spec
calls `element_type`; the generator itself never computes this. -/
def elementType (f : Field) : Option TypeExpr :=
  match f.ty with
  | .path ((_, some [e]) :: _) => some e
  | _ => none

/-!
## Runtime semantics of the emitted builder

The builder's storage is one slot per field, in field order.  A slot is an
`Option` value (fields without the builder attribute) or a vector (fields
with it), holding values of an arbitrary type `α`.
-/

/-- One storage slot of a builder instance at runtime. -/
inductive Storage (α : Type) where
  | opt : Option α → Storage α
  | vec : List α → Storage α
deriving DecidableEq, Repr

/-- The value of one field of the constructed record. -/
inductive FieldVal (α : Type) where
  | val : α → FieldVal α
  | optVal : Option α → FieldVal α
  | seq : List α → FieldVal α
deriving DecidableEq, Repr

/-- How a `build` call can fail: `missing` is the `return Err(msg)` of a
missing-value checker; `panicked` models a Rust panic (`unwrap` on `None`
or a shape mismatch), which aborts the process rather than returning. -/
inductive BuildError where
  | missing : String → BuildError
  | panicked : BuildError
deriving DecidableEq, Repr

/-- The error message emitted by a missing-value checker
(`format!("Field `{}` has a no value", ident_str)`). -/
def missingMsg (name : String) : String :=
  "Field `" ++ name ++ "` has a no value"

/-- The factory `#base_ident::builder()`: a builder whose storage fields
are initialized exactly as `builder_defaults` emits, in field order. -/
def initStorage (α : Type) (fields : List Field) : List (Storage α) :=
  fields.map fun f =>
    if is_builder_field f then Storage.vec [] else Storage.opt none

/-- The effect of the emitted mutator for field `f` on that field's slot,
following the branch order of `builder_setters`: an `Option`-typed field's
setter assigns `Some(v)`; otherwise a builder-attr field's appender pushes
`v` onto the vector; otherwise the required setter assigns `Some(v)`.
A push on a non-vector slot is a type error in the emitted code (it cannot
compile), modelled as leaving the slot unchanged. -/
def setField (f : Field) (v : α) (s : Storage α) : Storage α :=
  if is_optional f then Storage.opt (some v)
  else if is_builder_field f then
    match s with
    | .vec l => .vec (l ++ [v])
    | s' => s'
  else Storage.opt (some v)

/-- One mutator call on the builder: the call targets field index `i`
(i.e. the mutator emitted for `fields[i]`) with argument `v`. -/
def applyCall (fields : List Field) (st : List (Storage α)) (i : ℕ) (v : α) :
    List (Storage α) :=
  match fields[i]? with
  | some f => st.set i (setField f v (st.getD i (Storage.opt none)))
  | none => st

/-- A sequence of mutator calls, applied left to right. -/
def applyCalls (fields : List Field) (calls : List (ℕ × α))
    (st : List (Storage α)) : List (Storage α) :=
  calls.foldl (fun s c => applyCall fields s c.1 c.2) st

/-- Models `self.fld.is_none()` on a storage slot (a vector slot, where the
emitted code could not call `is_none`, is `false`). -/
def isNoneSlot : Storage α → Bool
  | .opt none => true
  | _ => false

/-- The emitted `assert_non_missing_values`: walk the fields in declaration
order and, for each field with neither `Option` type nor builder attribute,
return `Err` naming it as soon as its slot `is_none()`.  Fields of the
other kinds are never inspected. -/
def assert_non_missing_values (fields : List Field) (st : List (Storage α)) :
    Except String Unit :=
  match fields, st with
  | f :: fs, s :: ss =>
    if !is_optional f && !is_builder_field f then
      if isNoneSlot s then .error (missingMsg f.name)
      else assert_non_missing_values fs ss
    else assert_non_missing_values fs ss
  | _, _ => .ok ()

/-- The drain statement emitted for field `f` in `build`, acting on the
field's slot: returns the local value (or `none` on a panic) and the slot's
new contents.  Branch order follows `builder_build`'s `locals`:
`is_builder_field` first (`self.f.clone()` — slot unchanged), then
`is_optional` (`take()` — slot becomes `None`), else
`self.f.take().unwrap()` (slot becomes `None`; panics if it was `None`). -/
def drainField (f : Field) (s : Storage α) : Option (FieldVal α) × Storage α :=
  if is_builder_field f then
    match s with
    | .vec l => (some (.seq l), .vec l)
    | s' => (none, s')
  else if is_optional f then
    match s with
    | .opt o => (some (.optVal o), .opt none)
    | s' => (none, s')
  else
    match s with
    | .opt (some v) => (some (.val v), .opt none)
    | .opt none => (none, .opt none)
    | s' => (none, s')

/-- The straight-line sequence of drain statements of `build`, one per
field in declaration order: the list of locals (`none` as soon as one drain
panics) and the storage after all drains. -/
def drainAll (fields : List Field) (st : List (Storage α)) :
    Option (List (FieldVal α)) × List (Storage α) :=
  match fields, st with
  | f :: fs, s :: ss =>
    let r := drainField f s
    let rest := drainAll fs ss
    (match r.1, rest.1 with
     | some v, some vs => some (v :: vs)
     | _, _ => none,
     r.2 :: rest.2)
  | [], ss => (some [], ss)
  | _ :: _, [] => (some [], [])

/-- The emitted `build`: first `self.assert_non_missing_values()?` (which
mutates nothing and returns the error before any drain runs), then drain
every field into a local, then construct the record from the locals in
field order.  Returns the result together with the builder's storage after
the call. -/
def build (fields : List Field) (st : List (Storage α)) :
    Except BuildError (List (FieldVal α)) × List (Storage α) :=
  match assert_non_missing_values fields st with
  | .error e => (.error (.missing e), st)
  | .ok _ =>
    match drainAll fields st with
    | (some vals, st') => (.ok vals, st')
    | (none, st') => (.error .panicked, st')

/-!
## Concrete fixtures

Small concrete fields used by counterexamples and witnesses: a required
`u32` field, an `Option<u32>` field, a `Vec<u32>` field with a
`#[builder(each = "item")]` attribute, a `Vec<String>` field with a
`#[builder(each = "push_tag")]` attribute, and a field carrying BOTH an
`Option<u32>` type and a builder attribute. -/

/-- The type `u32`. -/
def u32ty : TypeExpr := .path [("u32", none)]

/-- The type `Option<u32>`. -/
def optU32ty : TypeExpr := .path [("Option", some [u32ty])]

/-- The type `Vec<u32>`. -/
def vecU32ty : TypeExpr := .path [("Vec", some [u32ty])]

/-- The type `Vec<String>`. -/
def vecStringTy : TypeExpr := .path [("Vec", some [stringTy])]

/-- The attribute `#[builder(each = "<a>")]` after `parse_meta`. -/
def builderAttr (a : String) : Meta :=
  .list ["builder"] [.nameValue ["each"] (.str a)]

/-- A required field `x: u32`. -/
def fReqEx : Field := { name := "x", vis := "", ty := u32ty, attrs := [] }

/-- A second required field `y: u32`. -/
def fReqEx2 : Field := { name := "y", vis := "", ty := u32ty, attrs := [] }

/-- An optional field `note: Option<u32>`. -/
def fOptEx : Field := { name := "note", vis := "", ty := optU32ty, attrs := [] }

/-- An accumulating field `tag: Vec<u32>` with `#[builder(each = "item")]`:
its element type is `u32`, not `String`. -/
def fAccU32Ex : Field :=
  { name := "tag", vis := "", ty := vecU32ty, attrs := [builderAttr "item"] }

/-- An accumulating field `tag: Vec<String>` with
`#[builder(each = "push_tag")]`. -/
def fAccStrEx : Field :=
  { name := "tag", vis := "", ty := vecStringTy, attrs := [builderAttr "push_tag"] }

/-- A conflicted field `c: Option<u32>` carrying `#[builder(each = "pushc")]`
— both the accumulation annotation and the nullable-wrapper type. -/
def fConflictEx : Field :=
  { name := "c", vis := "", ty := optU32ty, attrs := [builderAttr "pushc"] }

end BuilderMacro
/-!
## Helper lemmas

Bridging lemmas between the classification predicate, the validation walk
and the drain plan, used by the claim theorems below.
-/

namespace BuilderMacro

variable {α : Type}

theorem classify_eq_accumulating_iff {f : Field} :
    classify f = FieldKind.accumulating ↔ is_builder_field f = true := by
  unfold classify
  by_cases hb : is_builder_field f <;> by_cases ho : is_optional f <;> simp [hb, ho]

theorem classify_eq_optionalK_iff {f : Field} :
    classify f = FieldKind.optionalK ↔
      is_builder_field f = false ∧ is_optional f = true := by
  unfold classify
  by_cases hb : is_builder_field f <;> by_cases ho : is_optional f <;> simp [hb, ho]

theorem classify_eq_requiredK_iff {f : Field} :
    classify f = FieldKind.requiredK ↔
      is_builder_field f = false ∧ is_optional f = false := by
  unfold classify
  by_cases hb : is_builder_field f <;> by_cases ho : is_optional f <;> simp [hb, ho]

theorem isNoneSlot_eq_true_iff {s : Storage α} :
    isNoneSlot s = true ↔ s = Storage.opt none := by
  cases s with
  | opt o => cases o <;> simp [isNoneSlot]
  | vec l => simp [isNoneSlot]

theorem drainField_snd_of_isSome {f : Field} {s : Storage α}
    (h : (drainField f s).1.isSome) :
    (drainField f s).2 = if is_builder_field f then s else Storage.opt none := by
  unfold drainField at *
  by_cases hb : is_builder_field f <;> by_cases ho : is_optional f <;>
    cases s <;> simp_all
  case _ o => cases o <;> simp_all

theorem assert_ok_iff {fields : List Field} {st : List (Storage α)} :
    assert_non_missing_values fields st = .ok () ↔
      ∀ f s, (f, s) ∈ List.zip fields st → is_builder_field f = false →
        is_optional f = false → s ≠ Storage.opt none := by
  induction fields generalizing st with
  | nil => simp [assert_non_missing_values]
  | cons f fs ih =>
    cases st with
    | nil => simp [assert_non_missing_values]
    | cons s ss =>
      simp only [assert_non_missing_values]
      by_cases hb : is_builder_field f <;> by_cases ho : is_optional f
      · simp [hb, ho, ih, or_imp, forall_and, and_imp]
      · simp [hb, ho, ih, or_imp, forall_and, and_imp]
      · simp [hb, ho, ih, or_imp, forall_and, and_imp]
      · by_cases hs : isNoneSlot s = true
        · rw [isNoneSlot_eq_true_iff] at hs
          subst hs
          simp only [hb, ho, isNoneSlot, Bool.not_true, Bool.not_false,
            Bool.and_self, if_true, reduceIte]
          constructor
          · intro h; exact absurd h (by simp)
          · intro h
            exact absurd
              (h f (Storage.opt none) (by simp) (by simpa using hb)
                (by simpa using ho)) (by simp)
        · have hs' : s ≠ Storage.opt none := fun h => hs (isNoneSlot_eq_true_iff.mpr h)
          simp only [hb, ho, Bool.not_true, Bool.not_false, Bool.and_self,
            if_true, if_neg hs]
          simp [ih, or_imp, forall_and, and_imp, hs']

theorem assert_error_inv {fields : List Field} {st : List (Storage α)} {m : String}
    (h : assert_non_missing_values fields st = .error m) :
    ∃ f s, (f, s) ∈ List.zip fields st ∧
      is_builder_field f = false ∧ is_optional f = false ∧
      s = Storage.opt none ∧ m = missingMsg f.name := by
  induction fields generalizing st with
  | nil => simp [assert_non_missing_values] at h
  | cons f fs ih =>
    cases st with
    | nil => simp [assert_non_missing_values] at h
    | cons s ss =>
      simp only [assert_non_missing_values] at h
      by_cases hb : is_builder_field f <;> by_cases ho : is_optional f <;>
        simp only [hb, ho, Bool.not_true, Bool.not_false, Bool.and_self,
          Bool.false_and, Bool.and_false, Bool.true_and, if_true, if_false] at h
      case _ =>
        rcases ih h with ⟨g, t, hp, h1, h2, h3, h4⟩
        exact ⟨g, t, by simp [hp], h1, h2, h3, h4⟩
      case _ =>
        rcases ih h with ⟨g, t, hp, h1, h2, h3, h4⟩
        exact ⟨g, t, by simp [hp], h1, h2, h3, h4⟩
      case _ =>
        rcases ih h with ⟨g, t, hp, h1, h2, h3, h4⟩
        exact ⟨g, t, by simp [hp], h1, h2, h3, h4⟩
      case _ =>
        by_cases hs : isNoneSlot s = true
        · rw [if_pos hs] at h
          rw [isNoneSlot_eq_true_iff] at hs
          refine ⟨f, s, by simp, by simpa using hb, by simpa using ho, hs, ?_⟩
          cases h
          rfl
        · rw [if_neg hs] at h
          rcases ih h with ⟨g, t, hp, h1, h2, h3, h4⟩
          exact ⟨g, t, by simp [hp], h1, h2, h3, h4⟩


theorem drainAll_snd_of_some {fields : List Field} {st : List (Storage α)}
    {vals : List (FieldVal α)} {st' : List (Storage α)}
    (h : drainAll fields st = (some vals, st'))
    (hlen : st.length = fields.length) :
    st' = List.zipWith
      (fun f s => if is_builder_field f then s else Storage.opt none) fields st := by
  induction fields generalizing st vals st' with
  | nil =>
    cases st with
    | nil =>
      simp only [drainAll] at h
      injection h with h1 h2
      subst h2
      simp
    | cons s ss => simp at hlen
  | cons f fs ih =>
    cases st with
    | nil => simp at hlen
    | cons s ss =>
      simp only [drainAll] at h
      rcases hd : drainField f s with ⟨v?, s2⟩
      rcases hr : drainAll fs ss with ⟨vs?, ss2⟩
      rw [hd, hr] at h
      cases v? with
      | none => simp at h
      | some v =>
        cases vs? with
        | none => simp at h
        | some vs =>
          simp only [List.zipWith_cons_cons]
          have hsome : (drainField f s).1.isSome := by rw [hd]; rfl
          have h2 := drainField_snd_of_isSome hsome
          rw [hd] at h2
          simp only at h2
          injection h with h3 h4
          subst h4
          rw [h2, ih hr (by simpa using hlen)]

theorem drainAll_fst_getElem {fields : List Field} {st : List (Storage α)}
    {vals : List (FieldVal α)} {st' : List (Storage α)}
    (h : drainAll fields st = (some vals, st')) :
    ∀ (i : ℕ) (f : Field) (s : Storage α),
      fields[i]? = some f → st[i]? = some s → vals[i]? = (drainField f s).1 := by
  induction fields generalizing st vals st' with
  | nil => intro i f s hf; simp at hf
  | cons g fs ih =>
    intro i f s hf hs
    cases st with
    | nil => simp at hs
    | cons t ss =>
      simp only [drainAll] at h
      rcases hd : drainField g t with ⟨v?, s2⟩
      rcases hr : drainAll fs ss with ⟨vs?, ss2⟩
      rw [hd, hr] at h
      cases v? with
      | none => simp at h
      | some v =>
        cases vs? with
        | none => simp at h
        | some vs =>
          injection h with h3 h4
          injection h3 with h3
          subst h3
          cases i with
          | zero =>
            simp at hf hs
            subst hf; subst hs
            rw [hd]
            simp
          | succ j =>
            simp at hf hs
            simpa using ih hr j f s hf hs

theorem drainAll_isSome_of {fields : List Field} {st : List (Storage α)}
    (hlen : st.length = fields.length)
    (h : ∀ f s, (f, s) ∈ List.zip fields st → ((drainField f s).1).isSome = true) :
    ((drainAll fields st).1).isSome = true := by
  induction fields generalizing st with
  | nil =>
    cases st with
    | nil => simp [drainAll]
    | cons s ss => simp at hlen
  | cons f fs ih =>
    cases st with
    | nil => simp at hlen
    | cons s ss =>
      simp only [drainAll]
      rcases hd : drainField f s with ⟨v?, s2⟩
      rcases hr : drainAll fs ss with ⟨vs?, ss2⟩
      have h1 : v?.isSome = true := by
        have := h f s (by simp)
        rwa [hd] at this
      have h2 : vs?.isSome = true := by
        have := ih (by simpa using hlen) (fun g t hgt => h g t (by simp [hgt]))
        rwa [hr] at this
      cases v? with
      | none => simp at h1
      | some v =>
        cases vs? with
        | none => simp at h2
        | some vs => simp

theorem zipWith_drain_all_builder {fields : List Field} {st : List (Storage α)}
    (hacc : ∀ f ∈ fields, is_builder_field f = true)
    (hlen : st.length = fields.length) :
    List.zipWith (fun f s => if is_builder_field f then s else Storage.opt none)
      fields st = st := by
  induction fields generalizing st with
  | nil =>
    cases st with
    | nil => simp
    | cons s ss => simp at hlen
  | cons f fs ih =>
    cases st with
    | nil => simp at hlen
    | cons s ss =>
      simp only [List.zipWith_cons_cons, hacc f (by simp), if_true]
      rw [ih (fun g hg => hacc g (by simp [hg])) (by simpa using hlen)]

end BuilderMacro

namespace BuilderMacro

variable {α : Type}

theorem build_eq_of_assert_error {fields : List Field} {st : List (Storage α)}
    {m : String} (h : assert_non_missing_values fields st = .error m) :
    build fields st = (.error (.missing m), st) := by
  unfold build
  rw [h]

theorem build_ok_inv {fields : List Field} {st st' : List (Storage α)}
    {vals : List (FieldVal α)} (h : build fields st = (.ok vals, st')) :
    assert_non_missing_values fields st = .ok () ∧
      drainAll fields st = (some vals, st') := by
  unfold build at h
  rcases ha : assert_non_missing_values fields st with m | u
  · rw [ha] at h
    simp at h
  · rw [ha] at h
    rcases hd : drainAll fields st with ⟨v?, s2⟩
    rw [hd] at h
    cases v? with
    | none => simp at h
    | some vals' =>
      simp only [Prod.mk.injEq, Except.ok.injEq] at h
      exact ⟨rfl, by rw [h.1, h.2]⟩


theorem build_missing_inv {fields : List Field} {st : List (Storage α)}
    {m : String} (h : (build fields st).1 = .error (.missing m)) :
    assert_non_missing_values fields st = .error m := by
  unfold build at h
  rcases ha : assert_non_missing_values fields st with m' | u
  · rw [ha] at h
    simp only [Except.error.injEq, BuildError.missing.injEq] at h
    rw [h]
  · rw [ha] at h
    rcases hd : drainAll fields st with ⟨v?, s2⟩
    rw [hd] at h
    cases v? with
    | none => simp at h
    | some vals' => simp at h

/-- A builder state whose slots have the storage types the generator
declared for the fields: a vector slot exactly for builder-attr fields. -/
def ShapeOK (fields : List Field) (st : List (Storage α)) : Prop :=
  st.length = fields.length ∧
  ∀ f s, (f, s) ∈ List.zip fields st →
    if is_builder_field f then (∃ l, s = Storage.vec l)
    else (∃ o, s = Storage.opt o)

theorem drainAll_isSome_of_shape {fields : List Field} {st : List (Storage α)}
    (hshape : ShapeOK fields st)
    (ha : assert_non_missing_values fields st = .ok ()) :
    ((drainAll fields st).1).isSome = true := by
  apply drainAll_isSome_of hshape.1
  intro f s hmem
  have hsh := hshape.2 f s hmem
  rw [assert_ok_iff] at ha
  by_cases hb : is_builder_field f
  · rw [if_pos hb] at hsh
    rcases hsh with ⟨l, rfl⟩
    simp [drainField, hb]
  · rw [if_neg hb] at hsh
    rcases hsh with ⟨o, rfl⟩
    by_cases ho : is_optional f
    · simp [drainField, hb, ho]
    · have hne := ha f (.opt o) hmem (by simpa using hb) (by simpa using ho)
      cases o with
      | none => exact absurd rfl hne
      | some v => simp [drainField, hb, ho]

end BuilderMacro

namespace BuilderMacro

variable {α : Type}

theorem assert_error_at_first {fields : List Field} :
    ∀ (st : List (Storage α)) (i : ℕ) (f : Field),
      fields[i]? = some f → classify f = FieldKind.requiredK →
      st[i]? = some (Storage.opt none) →
      (∀ (j : ℕ), j < i → ∀ g t, fields[j]? = some g → st[j]? = some t →
        classify g = FieldKind.requiredK → t ≠ Storage.opt none) →
      assert_non_missing_values fields st = .error (missingMsg f.name) := by
  induction fields with
  | nil => intro st i f hf; simp at hf
  | cons f0 fs ih =>
    intro st i f hf hreq hmiss hfirst
    cases st with
    | nil => simp at hmiss
    | cons s ss =>
      simp only [assert_non_missing_values]
      cases i with
      | zero =>
        simp at hf hmiss
        subst hf; subst hmiss
        obtain ⟨hb, ho⟩ := classify_eq_requiredK_iff.mp hreq
        simp [hb, ho, isNoneSlot]
      | succ j =>
        simp at hf hmiss
        have htail : assert_non_missing_values fs ss = .error (missingMsg f.name) := by
          refine ih ss j f hf hreq hmiss ?_
          intro k hk g t hg ht hgreq
          exact hfirst (k + 1) (by omega) g t (by simpa using hg)
            (by simpa using ht) hgreq
        by_cases hb : is_builder_field f0 <;> by_cases ho : is_optional f0
        · simp [hb, ho, htail]
        · simp [hb, ho, htail]
        · simp [hb, ho, htail]
        · have hne : s ≠ Storage.opt none := by
            refine hfirst 0 (by omega) f0 s (by simp) (by simp) ?_
            exact classify_eq_requiredK_iff.mpr ⟨by simpa using hb, by simpa using ho⟩
          have hslot : isNoneSlot s = false := by
            cases hfull : isNoneSlot s
            · rfl
            · exact absurd (isNoneSlot_eq_true_iff.mp hfull) hne
          simp [hb, ho, hslot, htail]

/-- C4: whenever at least one field with neither the builder attribute nor
an `Option` type (a Required field) has absent storage when `build` is
called, `build` returns the `Err` naming the first such field in
declaration order — validation short-circuits there, aggregating nothing —
and the storage is untouched. -/
theorem C4_first_missing_required {α : Type} {fields : List Field}
    {st : List (Storage α)} {i : ℕ} {f : Field}
    (hf : fields[i]? = some f)
    (hreq : classify f = FieldKind.requiredK)
    (hmiss : st[i]? = some (Storage.opt none))
    (hfirst : ∀ (j : ℕ), j < i → ∀ g t, fields[j]? = some g → st[j]? = some t →
      classify g = FieldKind.requiredK → t ≠ Storage.opt none) :
    build fields st = (.error (.missing (missingMsg f.name)), st) :=
  build_eq_of_assert_error (assert_error_at_first st i f hf hreq hmiss hfirst)

/-- Witness for C4 at a concrete input: builder for `{x: u32, y: u32}` with
`x` populated and `y` missing; `build` fails naming `y` and leaves storage
unchanged. -/
theorem C4_first_missing_required_witness :
    build [fReqEx, fReqEx2] [Storage.opt (some (1 : ℕ)), Storage.opt none]
      = (.error (.missing (missingMsg "y")),
         [Storage.opt (some 1), Storage.opt none]) := by
  have h := @C4_first_missing_required ℕ [fReqEx, fReqEx2]
    [Storage.opt (some 1), Storage.opt none] 1 fReqEx2
    (by rfl) (by rfl) (by rfl) ?_
  · exact h
  · intro j hj g t hg ht hgreq
    have hj0 : j = 0 := by omega
    subst hj0
    simp at hg ht
    subst hg; subst ht
    simp

/-- C6: when `build` returns a failure result, the builder's storage is
unchanged — validation runs (and returns the error) before any drain
statement mutates a slot.  `ShapeOK` states that the storage slots have
the shapes the generated builder struct declares; under it, the drain
phase cannot panic, so every failure is a validation failure returned
before mutation. -/
theorem C6_build_failure_frame {α : Type} {fields : List Field}
    {st : List (Storage α)} {e : BuildError}
    (hshape : ShapeOK fields st)
    (h : (build fields st).1 = .error e) :
    (build fields st).2 = st := by
  rcases ha : assert_non_missing_values fields st with m | u
  · unfold build
    rw [ha]
  · have hsome := drainAll_isSome_of_shape hshape (by rw [ha])
    unfold build at h ⊢
    rw [ha] at h ⊢
    rcases hd : drainAll fields st with ⟨v?, s2⟩
    cases v? with
    | some vals => rw [hd] at h; simp at h
    | none => rw [hd] at hsome; simp at hsome

/-- Witness for C6: a builder for `{x: u32}` with `x` missing; `build`
fails and the storage after the call is the storage before. -/
theorem C6_build_failure_frame_witness :
    (build [fReqEx] [Storage.opt (none : Option ℕ)]).2
      = [Storage.opt (none : Option ℕ)] := by
  apply C6_build_failure_frame (e := .missing (missingMsg "x"))
  · constructor
    · rfl
    · intro f s hmem
      simp at hmem
      rw [hmem.1, hmem.2]
      simp [fReqEx, is_builder_field]
  · rfl

/-- C5: after a successful `build`, each field with the builder attribute
(Accumulating) keeps its storage unchanged (drained with `clone`), while
every other field's storage (Required and Optional) is set to absent
(drained with `take`). -/
theorem C5_build_success_frame {α : Type} {fields : List Field}
    {st st' : List (Storage α)} {vals : List (FieldVal α)}
    (h : build fields st = (.ok vals, st'))
    (hlen : st.length = fields.length) :
    st' = List.zipWith
      (fun f s => if classify f = FieldKind.accumulating then s
                  else Storage.opt none) fields st := by
  obtain ⟨_, hd⟩ := build_ok_inv h
  rw [drainAll_snd_of_some hd hlen]
  have hfun : (fun (f : Field) (s : Storage α) =>
      if is_builder_field f then s else Storage.opt none)
      = (fun f s => if classify f = FieldKind.accumulating then s
                    else Storage.opt none) := by
    funext f s
    exact if_congr (by simp [classify_eq_accumulating_iff]) rfl rfl
  rw [hfun]

/-- Witness for C5 at a concrete input: builder for
`{x: u32 required, note: Option<u32>, tag: Vec<String> each="push_tag"}`
with all slots populated; after `build` the accumulating slot is kept and
the other two are absent. -/
theorem C5_build_success_frame_witness :
    ([Storage.opt none, Storage.opt none, Storage.vec ["a"]]
        : List (Storage String)) =
      List.zipWith
        (fun f s => if classify f = FieldKind.accumulating then s
                    else Storage.opt none)
        [fReqEx, fOptEx, fAccStrEx]
        [Storage.opt (some "v"), Storage.opt (some "w"), Storage.vec ["a"]] := by
  exact @C5_build_success_frame String [fReqEx, fOptEx, fAccStrEx]
    [Storage.opt (some "v"), Storage.opt (some "w"), Storage.vec ["a"]]
    [Storage.opt none, Storage.opt none, Storage.vec ["a"]]
    [FieldVal.val "v", FieldVal.optVal (some "w"), FieldVal.seq ["a"]]
    (by rfl) (by rfl)

end BuilderMacro

namespace BuilderMacro

variable {α : Type}

theorem zipWith_drain_id_of_all_builder {fields : List Field}
    {st : List (Storage α)}
    (hacc : ∀ f ∈ fields, is_builder_field f = true)
    (hlen : st.length = fields.length) :
    List.zipWith (fun f s => if is_builder_field f then s else Storage.opt none)
      fields st = st := by
  induction fields generalizing st with
  | nil =>
    cases st with
    | nil => simp
    | cons s ss => simp at hlen
  | cons f fs ih =>
    cases st with
    | nil => simp at hlen
    | cons s ss =>
      simp only [List.zipWith_cons_cons, hacc f (by simp), if_true]
      rw [ih (fun g hg => hacc g (by simp [hg])) (by simpa using hlen)]

/-- C1 as stated is false: for a builder with one Required field `x: u32`,
populated by its setter, the first `build` succeeds but sets the slot to
absent (`take()` moves the value out), so the storage after the call
differs from the storage before it and a second `build` without
intervening mutator calls fails validation instead of returning the same
record. -/
theorem C1_build_consumes_counterexample :
    build [fReqEx] (applyCalls [fReqEx] [(0, (5 : ℕ))] (initStorage ℕ [fReqEx]))
        = (.ok [FieldVal.val 5], [Storage.opt none]) ∧
    applyCalls [fReqEx] [(0, (5 : ℕ))] (initStorage ℕ [fReqEx])
        = [Storage.opt (some 5)] ∧
    ([Storage.opt none] : List (Storage ℕ)) ≠ [Storage.opt (some 5)] ∧
    (build [fReqEx] [Storage.opt (none : Option ℕ)]).1
        = .error (.missing (missingMsg "x")) := by
  refine ⟨by rfl, by rfl, by decide, by rfl⟩

/-- C1 amended: a successful `build` keeps only the accumulating slots; if
every field is Accumulating, `build` is indeed non-consuming — a second
call re-validates, succeeds, and returns the same record with the same
storage — but if any field is Required, a second `build` without
intervening mutator calls fails validation, because the first call moved
the required values out of storage. -/
theorem C1_build_repeat_amended {α : Type} {fields : List Field}
    {st st' : List (Storage α)} {vals : List (FieldVal α)}
    (hlen : st.length = fields.length)
    (h : build fields st = (.ok vals, st')) :
    ((∀ f ∈ fields, classify f = FieldKind.accumulating) →
      build fields st' = (.ok vals, st')) ∧
    ((∃ f ∈ fields, classify f = FieldKind.requiredK) →
      ∃ m, (build fields st').1 = .error (.missing m)) := by
  obtain ⟨ha, hd⟩ := build_ok_inv h
  have hsnd := drainAll_snd_of_some hd hlen
  constructor
  · intro hacc
    have hbld : ∀ f ∈ fields, is_builder_field f = true := fun f hf =>
      classify_eq_accumulating_iff.mp (hacc f hf)
    have hst : st' = st := by
      rw [hsnd, zipWith_drain_id_of_all_builder hbld hlen]
    rw [hst]
    rw [hst] at h
    exact h
  · rintro ⟨f, hf, hreq⟩
    obtain ⟨j, hj, rfl⟩ := List.mem_iff_getElem.mp hf
    have hbld : is_builder_field fields[j] = false :=
      (classify_eq_requiredK_iff.mp hreq).1
    have hjst : j < st.length := by omega
    have hst'j : st'[j]? = some (Storage.opt none) := by
      rw [hsnd, List.getElem?_zipWith, List.getElem?_eq_getElem hj,
        List.getElem?_eq_getElem hjst]
      simp [hbld]
    have hlen' : st'.length = fields.length := by
      rw [hsnd, List.length_zipWith, hlen]
      exact Nat.min_self _
    have hmem : (fields[j], Storage.opt (none : Option α)) ∈
        List.zip fields st' := by
      have hjz : j < (List.zip fields st').length := by
        rw [List.length_zip, hlen']
        omega
      have hzj := @List.getElem_zip _ _ fields st' j hjz
      have hj' : st'[j] = Storage.opt none := by
        rw [List.getElem?_eq_getElem (by omega : j < st'.length)] at hst'j
        exact Option.some.inj hst'j
      rw [← hj', ← hzj]
      exact List.getElem_mem hjz
    have hnot : assert_non_missing_values fields st' ≠ .ok () := by
      intro hok
      have := assert_ok_iff.mp hok fields[j] (Storage.opt none) hmem hbld
        (classify_eq_requiredK_iff.mp hreq).2
      exact this rfl
    rcases he : assert_non_missing_values fields st' with m | u
    · exact ⟨m, by rw [build_eq_of_assert_error he]⟩
    · exact absurd (by rw [he]) hnot

/-- Witness for the amended C1: a builder whose single field is the
accumulating `tag: Vec<String>`: `build` succeeds, and calling `build`
again returns the same record with the same storage. -/
theorem C1_build_repeat_amended_witness :
    build [fAccStrEx] ([Storage.vec ["a"]] : List (Storage String))
        = (.ok [FieldVal.seq ["a"]], [Storage.vec ["a"]]) ∧
    build [fAccStrEx] ([Storage.vec ["a"]] : List (Storage String))
        = (.ok [FieldVal.seq ["a"]], [Storage.vec ["a"]]) := by
  refine ⟨by rfl, ?_⟩
  exact (@C1_build_repeat_amended String [fAccStrEx] [Storage.vec ["a"]]
    [Storage.vec ["a"]] [FieldVal.seq ["a"]] (by rfl) (by rfl)).1
    (by
      intro f hf
      rw [List.mem_singleton] at hf
      subst hf
      rfl)

end BuilderMacro

namespace BuilderMacro

variable {α : Type}

theorem applyCalls_cons {fields : List Field} {c : ℕ × α} {cs : List (ℕ × α)}
    {st : List (Storage α)} :
    applyCalls fields (c :: cs) st
      = applyCalls fields cs (applyCall fields st c.1 c.2) := rfl

theorem length_applyCall {fields : List Field} {st : List (Storage α)}
    {i : ℕ} {v : α} :
    (applyCall fields st i v).length = st.length := by
  unfold applyCall
  cases fields[i]? <;> simp

theorem length_applyCalls {fields : List Field} {calls : List (ℕ × α)}
    {st : List (Storage α)} :
    (applyCalls fields calls st).length = st.length := by
  induction calls generalizing st with
  | nil => rfl
  | cons c cs ih => rw [applyCalls_cons, ih, length_applyCall]

theorem getElem?_applyCall_ne {fields : List Field} {st : List (Storage α)}
    {i j : ℕ} {v : α} (hne : i ≠ j) :
    (applyCall fields st i v)[j]? = st[j]? := by
  unfold applyCall
  cases fields[i]? with
  | none => rfl
  | some f => exact List.getElem?_set_ne hne

theorem getElem?_applyCalls_not_mem {fields : List Field}
    {calls : List (ℕ × α)} {st : List (Storage α)} {i : ℕ}
    (hni : i ∉ calls.map Prod.fst) :
    (applyCalls fields calls st)[i]? = st[i]? := by
  induction calls generalizing st with
  | nil => rfl
  | cons c cs ih =>
    rw [applyCalls_cons]
    have hi1 : i ∉ cs.map Prod.fst := by
      intro hmem
      exact hni (by simp [hmem])
    have hi0 : c.1 ≠ i := by
      intro hc
      exact hni (by simp [← hc])
    rw [ih hi1, getElem?_applyCall_ne hi0]

theorem getElem?_applyCalls_write {fields : List Field} {calls : List (ℕ × α)}
    {i : ℕ} {f : Field} {w : α}
    (hf : fields[i]? = some f)
    (hassign : is_builder_field f = false)
    (hmem : i ∈ calls.map Prod.fst)
    (hval : ∀ p ∈ calls, p.1 = i → p.2 = w) :
    ∀ {st : List (Storage α)}, i < st.length →
      (applyCalls fields calls st)[i]? = some (Storage.opt (some w)) := by
  induction calls with
  | nil => simp at hmem
  | cons c cs ih =>
    intro st hi
    rw [applyCalls_cons]
    by_cases hic : i ∈ cs.map Prod.fst
    · exact ih hic (fun p hp => hval p (List.mem_cons_of_mem _ hp))
        (by rw [length_applyCall]; exact hi)
    · have hc1 : c.1 = i := by
        simp only [List.map_cons, List.mem_cons] at hmem
        rcases hmem with h | h
        · exact h.symm
        · exact absurd h hic
      have hw : c.2 = w := hval c (by simp) hc1
      have hset : (applyCall fields st c.1 c.2)[i]?
          = some (setField f c.2 (st.getD c.1 (Storage.opt none))) := by
        unfold applyCall
        rw [hc1, hf]
        exact List.getElem?_set_self hi
      rw [getElem?_applyCalls_not_mem hic, hset, hw]
      unfold setField
      by_cases ho : is_optional f
      · simp [ho]
      · simp [ho, hassign]

theorem length_initStorage {fields : List Field} :
    (initStorage α fields).length = fields.length := by
  unfold initStorage
  simp

theorem getElem?_initStorage {fields : List Field} {i : ℕ} :
    (initStorage α fields)[i]?
      = (fields[i]?).map
          (fun f => if is_builder_field f then Storage.vec [] else Storage.opt none) := by
  unfold initStorage
  rw [List.getElem?_map]

theorem assert_on_populated {fields : List Field} {vs : List α} :
    assert_non_missing_values fields (vs.map fun v => Storage.opt (some v))
      = .ok () := by
  rw [assert_ok_iff]
  intro f s hmem _ _
  have hs := (List.of_mem_zip hmem).2
  simp only [List.mem_map] at hs
  rcases hs with ⟨v, _, rfl⟩
  simp

theorem drainAll_on_populated {fields : List Field} {vs : List α}
    (hlen : vs.length = fields.length)
    (hreq : ∀ f ∈ fields, is_builder_field f = false ∧ is_optional f = false) :
    drainAll fields (vs.map fun v => Storage.opt (some v))
      = (some (vs.map FieldVal.val), vs.map fun _ => Storage.opt none) := by
  induction fields generalizing vs with
  | nil =>
    cases vs with
    | nil => simp [drainAll]
    | cons v vt => simp at hlen
  | cons f fs ih =>
    cases vs with
    | nil => simp at hlen
    | cons v vt =>
      obtain ⟨hb, ho⟩ := hreq f (by simp)
      simp only [List.map_cons, drainAll]
      rw [ih (by simpa using hlen) (fun g hg => hreq g (by simp [hg]))]
      simp [drainField, hb, ho]

/-- C7: for a record all of whose fields are Required, calling every
field's setter exactly once — in any interleaving order, with arbitrary
values — and then `build` succeeds and returns the record whose field
values are exactly the values passed to the respective setters. -/
theorem C7_all_required_roundtrip {α : Type} {fields : List Field}
    {vs : List α} {calls : List (ℕ × α)}
    (hall : ∀ f ∈ fields, classify f = FieldKind.requiredK)
    (hlen : vs.length = fields.length)
    (hperm : (calls.map Prod.fst).Perm (List.range fields.length))
    (hvals : ∀ p ∈ calls, vs[p.1]? = some p.2) :
    build fields (applyCalls fields calls (initStorage α fields))
      = (.ok (vs.map FieldVal.val), vs.map fun _ => Storage.opt none) := by
  have hstF : applyCalls fields calls (initStorage α fields)
      = vs.map fun v => Storage.opt (some v) := by
    apply List.ext_getElem?
    intro i
    by_cases hi : i < fields.length
    · have hf : fields[i]? = some fields[i] := List.getElem?_eq_getElem hi
      have hfm : fields[i] ∈ fields := List.getElem_mem hi
      have hbld : is_builder_field fields[i] = false :=
        (classify_eq_requiredK_iff.mp (hall _ hfm)).1
      have hmem : i ∈ calls.map Prod.fst :=
        hperm.mem_iff.mpr (List.mem_range.mpr hi)
      have hiv : i < vs.length := by omega
      have hw : vs[i]? = some vs[i] := List.getElem?_eq_getElem hiv
      have hwrite := getElem?_applyCalls_write (w := vs[i]) hf hbld hmem
        (fun p hp hpi => by
          have hv := hvals p hp
          rw [hpi, hw] at hv
          exact (Option.some.inj hv).symm)
        (show i < (initStorage α fields).length by
          rw [length_initStorage]; exact hi)
      rw [hwrite, List.getElem?_map, hw]
      rfl
    · rw [List.getElem?_eq_none, List.getElem?_eq_none]
      · rw [List.length_map]
        omega
      · rw [length_applyCalls, length_initStorage]
        omega
  rw [hstF]
  unfold build
  rw [assert_on_populated,
    drainAll_on_populated hlen
      (fun f hf => classify_eq_requiredK_iff.mp (hall f hf))]

/-- Witness for C7: record `{x: u32, y: u32}`; setters called in reverse
declaration order with values 7 and 9; `build` returns `{x: 7, y: 9}`. -/
theorem C7_all_required_roundtrip_witness :
    build [fReqEx, fReqEx2]
        (applyCalls [fReqEx, fReqEx2] [(1, (9 : ℕ)), (0, 7)]
          (initStorage ℕ [fReqEx, fReqEx2]))
      = (.ok [FieldVal.val 7, FieldVal.val 9],
         [Storage.opt none, Storage.opt none]) := by
  have h := @C7_all_required_roundtrip ℕ [fReqEx, fReqEx2] [7, 9]
    [(1, 9), (0, 7)]
    (by
      intro f hf
      simp only [List.mem_cons, List.mem_singleton] at hf
      rcases hf with rfl | hf
      · rfl
      · rcases hf with rfl | hf
        · rfl
        · simp at hf)
    (by rfl)
    (by decide)
    (by decide)
  exact h

end BuilderMacro

namespace BuilderMacro

/-- C8: for a builder state reached from the factory's zero value by any
mutator calls that never target the Optional field `f` at position `i`:
every validation failure of `build` names a Required field (Optional and
Accumulating fields are never checked, so the failure is never on account
of `f`), and on success the constructed record has field `i` absent. -/
theorem C8_optional_exempt {α : Type} {fields : List Field} {i : ℕ}
    {f : Field} {calls : List (ℕ × α)}
    (hf : fields[i]? = some f)
    (hopt : classify f = FieldKind.optionalK)
    (hnc : ∀ p ∈ calls, p.1 ≠ i) :
    (∀ m, (build fields (applyCalls fields calls (initStorage α fields))).1
        = .error (.missing m) →
      ∃ j g, j ≠ i ∧ fields[j]? = some g ∧
        classify g = FieldKind.requiredK ∧ m = missingMsg g.name) ∧
    (∀ vals st',
      build fields (applyCalls fields calls (initStorage α fields))
        = (.ok vals, st') →
      vals[i]? = some (FieldVal.optVal none)) := by
  constructor
  · intro m hm
    have ha := build_missing_inv hm
    rcases assert_error_inv ha with ⟨g, t, hmem, hgb, hgo, ht, hmmsg⟩
    obtain ⟨j, hj, hzj⟩ := List.mem_iff_getElem.mp hmem
    have hjf : j < fields.length := by
      rw [List.length_zip] at hj
      omega
    have hgz := List.getElem_zip (h := hj)
    rw [hgz] at hzj
    have hg : fields[j]? = some g := by
      rw [List.getElem?_eq_getElem hjf]
      exact congrArg some (congrArg Prod.fst hzj)
    refine ⟨j, g, ?_, hg, classify_eq_requiredK_iff.mpr ⟨hgb, hgo⟩, hmmsg⟩
    intro hji
    subst hji
    rw [hf] at hg
    have hfg : f = g := Option.some.inj hg
    have hreq : classify f = FieldKind.requiredK := by
      rw [hfg]
      exact classify_eq_requiredK_iff.mpr ⟨hgb, hgo⟩
    exact FieldKind.noConfusion (hopt.symm.trans hreq)
  · intro vals st' hbuild
    obtain ⟨ha, hd⟩ := build_ok_inv hbuild
    have hnm : i ∉ calls.map Prod.fst := by
      intro hmem
      rcases List.mem_map.mp hmem with ⟨p, hp, hpe⟩
      exact hnc p hp hpe
    obtain ⟨hbld, hoT⟩ := classify_eq_optionalK_iff.mp hopt
    have hstF : (applyCalls fields calls (initStorage α fields))[i]?
        = some (Storage.opt none) := by
      rw [getElem?_applyCalls_not_mem hnm, getElem?_initStorage, hf]
      simp [hbld]
    have hvi := drainAll_fst_getElem hd i f (Storage.opt none) hf hstF
    rw [hvi]
    simp [drainField, hbld, hoT]

/-- Witness for C8: record `{x: u32 required, note: Option<u32>}` with only
the setter for `x` called; `build` succeeds and the record's `note` field
is absent. -/
theorem C8_optional_exempt_witness :
    ([FieldVal.val 3, FieldVal.optVal none] : List (FieldVal ℕ))[1]?
      = some (FieldVal.optVal none) := by
  have h := @C8_optional_exempt ℕ [fReqEx, fOptEx] 1 fOptEx [(0, 3)]
    (by rfl) (by rfl)
    (by
      intro p hp
      rw [List.mem_singleton] at hp
      subst hp
      decide)
  exact h.2 [FieldVal.val 3, FieldVal.optVal none]
    [Storage.opt none, Storage.opt none] (by rfl)

end BuilderMacro

namespace BuilderMacro

/-- C2 as stated is false in its parameter-type part: for the field
`tag: Vec<u32>` with `#[builder(each = "item")]`, whose element type is
`u32`, the generated appender is indeed named `item` and pushes onto the
storage, but its one parameter has the hardcoded type `String`, not the
element type `u32`. -/
theorem C2_appender_param_counterexample :
    is_builder_field fAccU32Ex = true ∧
    builder_attr_each fAccU32Ex = some "item" ∧
    elementType fAccU32Ex = some u32ty ∧
    setter_for fAccU32Ex
      = some { name := "item", paramTys := [stringTy],
               action := SetterAction.push "tag" } ∧
    ([stringTy] : List TypeExpr) ≠ [u32ty] := by
  refine ⟨rfl, rfl, rfl, rfl, ?_⟩
  simp [stringTy, u32ty]

/-- C2 amended: for every field carrying the builder attribute (and not an
`Option`-shaped type, which would win the setter branch) whose attribute
parses to appender name `a`, the generated mutator is named `a`, takes
exactly one parameter of the hardcoded type `String` (this coincides with
the element type only when the element type is `String`), pushes its
argument onto the END of the existing storage sequence, and (like every
generated mutator) returns `&mut Self`. -/
theorem C2_appender_amended {f : Field} {a : String}
    (hb : is_builder_field f = true) (hno : is_optional f = false)
    (he : builder_attr_each f = some a) :
    setter_for f
      = some { name := a, paramTys := [stringTy],
               action := SetterAction.push f.name } ∧
    ∀ (α : Type) (v : α) (l : List α),
      setField f v (Storage.vec l) = Storage.vec (l ++ [v]) := by
  constructor
  · simp [setter_for, hno, hb, he]
  · intro α v l
    simp [setField, hno, hb]

/-- Witness for the amended C2 at the field `tag: Vec<String>` with
`#[builder(each = "push_tag")]`. -/
theorem C2_appender_amended_witness :
    setter_for fAccStrEx
      = some { name := "push_tag", paramTys := [stringTy],
               action := SetterAction.push "tag" } ∧
    setField fAccStrEx "a" (Storage.vec ["x"]) = Storage.vec ["x", "a"] := by
  have h := C2_appender_amended (f := fAccStrEx) (a := "push_tag")
    (by rfl) (by rfl) (by rfl)
  exact ⟨h.1, h.2 String "a" ["x"]⟩

/-- C3 as stated is false: for the conflicted field `c: Option<u32>` with
`#[builder(each = "pushc")]`, the zero-value and finalize stages do treat
it as Accumulating (`Vec::new()` and `clone`), but the mutator stage tests
the `Option` shape FIRST and emits an Optional-style setter — named `c`
(the field's own name, not `pushc`) and assigning rather than pushing — so
not every stage gives the accumulation annotation priority. -/
theorem C3_stage_priority_counterexample :
    classify fConflictEx = FieldKind.accumulating ∧
    builder_attr_each fConflictEx = some "pushc" ∧
    builder_defaults [fConflictEx] = [("c", DefaultInit.vecNew)] ∧
    build_locals [fConflictEx] = [("c", DrainKind.clone)] ∧
    (setter_for fConflictEx).map Setter.action = some (SetterAction.assign "c") ∧
    (setter_for fConflictEx).map Setter.name = some "c" ∧
    SetterAction.assign "c" ≠ SetterAction.push "c" := by
  refine ⟨rfl, rfl, rfl, rfl, rfl, rfl, by decide⟩

/-- C3 amended: classification (annotation first, then nullable-wrapper
shape, else Required) is total and mutually exclusive, and for every field
NOT carrying both the accumulation annotation and an `Option`-shaped type
all four synthesis stages agree with it; on a field carrying both markers
the stages disagree — the mutator stage checks the wrapper shape first
(see the counterexample), so agreement holds only away from that conflict. -/
theorem C3_stage_agreement_amended (f : Field)
    (hok : ¬(is_optional f = true ∧ is_builder_field f = true)) :
    (classify f = FieldKind.accumulating →
      builder_defaults [f] = [(f.name, DefaultInit.vecNew)] ∧
      build_locals [f] = [(f.name, DrainKind.clone)] ∧
      missing_values_checkers [f] = [] ∧
      builder_fields [f] = [⟨f.vis, f.name, StorageTy.raw f.ty⟩] ∧
      ∀ a, builder_attr_each f = some a →
        setter_for f = some ⟨a, [stringTy], SetterAction.push f.name⟩) ∧
    (classify f = FieldKind.optionalK →
      builder_defaults [f] = [(f.name, DefaultInit.noneVal)] ∧
      build_locals [f] = [(f.name, DrainKind.takeOpt)] ∧
      missing_values_checkers [f] = [] ∧
      builder_fields [f] = [⟨f.vis, f.name, StorageTy.raw f.ty⟩] ∧
      ∀ args, optional_inner_ty f = some args →
        setter_for f = some ⟨f.name, args, SetterAction.assign f.name⟩) ∧
    (classify f = FieldKind.requiredK →
      builder_defaults [f] = [(f.name, DefaultInit.noneVal)] ∧
      build_locals [f] = [(f.name, DrainKind.takeUnwrap)] ∧
      missing_values_checkers [f] = [f.name] ∧
      builder_fields [f] = [⟨f.vis, f.name, StorageTy.optionWrap f.ty⟩] ∧
      setter_for f = some ⟨f.name, [f.ty], SetterAction.assign f.name⟩) := by
  refine ⟨?_, ?_, ?_⟩
  · intro hk
    have hb := classify_eq_accumulating_iff.mp hk
    have ho : is_optional f = false := by
      rcases Bool.eq_false_or_eq_true (is_optional f) with h | h
      · exact absurd ⟨h, hb⟩ hok
      · exact h
    refine ⟨?_, ?_, ?_, ?_, ?_⟩
    · simp [builder_defaults, hb]
    · simp [build_locals, hb]
    · simp [missing_values_checkers, List.filter, hb, ho]
    · simp [builder_fields, hb, ho]
    · intro a hea
      simp [setter_for, ho, hb, hea]
  · intro hk
    obtain ⟨hb, ho⟩ := classify_eq_optionalK_iff.mp hk
    refine ⟨?_, ?_, ?_, ?_, ?_⟩
    · simp [builder_defaults, hb]
    · simp [build_locals, hb, ho]
    · simp [missing_values_checkers, List.filter, hb, ho]
    · simp [builder_fields, hb, ho]
    · intro args harg
      simp [setter_for, ho, hb, harg]
  · intro hk
    obtain ⟨hb, ho⟩ := classify_eq_requiredK_iff.mp hk
    refine ⟨?_, ?_, ?_, ?_, ?_⟩
    · simp [builder_defaults, hb]
    · simp [build_locals, hb, ho]
    · simp [missing_values_checkers, List.filter, hb, ho]
    · simp [builder_fields, hb, ho]
    · simp [setter_for, ho, hb]

/-- Witness for the amended C3 at the required field `x: u32`: all stages
treat it as Required. -/
theorem C3_stage_agreement_amended_witness :
    builder_defaults [fReqEx] = [("x", DefaultInit.noneVal)] ∧
    missing_values_checkers [fReqEx] = ["x"] ∧
    setter_for fReqEx = some ⟨"x", [u32ty], SetterAction.assign "x"⟩ := by
  have h := (C3_stage_agreement_amended fReqEx
    (fun hc => absurd hc.1 (by decide))).2.2 (by rfl)
  exact ⟨h.1, h.2.2.1, h.2.2.2.2⟩

/-- C9: for any derive input that is not a struct with named fields (an
enum, a union, a tuple struct, or a unit struct), code generation aborts
with an error and emits nothing. -/
theorem C9_reject_non_named_struct (input : DeriveInput)
    (h : ∀ fs, input.data ≠ Data.dstruct (FieldsShape.named fs)) :
    ∃ m, derive input = Except.error m := by
  rcases input with ⟨name, data⟩
  cases data with
  | dstruct shape =>
    cases shape with
    | named fs => exact absurd rfl (h fs)
    | unnamed fs => exact ⟨_, rfl⟩
    | unit => exact ⟨_, rfl⟩
  | denum => exact ⟨_, rfl⟩
  | dunion => exact ⟨_, rfl⟩

/-- Witness for C9: deriving on an enum aborts. -/
theorem C9_reject_non_named_struct_witness :
    ∃ m, derive { ident := "Cmd", data := Data.denum } = Except.error m :=
  C9_reject_non_named_struct { ident := "Cmd", data := Data.denum }
    (fun _ hc => Data.noConfusion hc)

/-- C10: the factory's zero value assigns, to every field in source order,
the empty vector for Accumulating fields and the absent option for
Required and Optional fields; both the emitted initializer list and the
emitted builder storage fields keep exactly the source field order. -/
theorem C10_factory_zero_valued (α : Type) (fields : List Field) :
    builder_defaults fields
      = fields.map (fun f => (f.name,
          match classify f with
          | FieldKind.accumulating => DefaultInit.vecNew
          | FieldKind.optionalK => DefaultInit.noneVal
          | FieldKind.requiredK => DefaultInit.noneVal)) ∧
    initStorage α fields
      = fields.map (fun f =>
          match classify f with
          | FieldKind.accumulating => Storage.vec []
          | FieldKind.optionalK => Storage.opt none
          | FieldKind.requiredK => Storage.opt none) ∧
    (builder_defaults fields).map Prod.fst = fields.map Field.name ∧
    (builder_fields fields).map StorageField.name = fields.map Field.name := by
  refine ⟨?_, ?_, ?_, ?_⟩
  · unfold builder_defaults
    apply List.map_congr_left
    intro f _
    by_cases hb : is_builder_field f
    · simp [classify, hb]
    · by_cases ho : is_optional f <;> simp [classify, hb, ho]
  · unfold initStorage
    apply List.map_congr_left
    intro f _
    by_cases hb : is_builder_field f
    · simp [classify, hb]
    · by_cases ho : is_optional f <;> simp [classify, hb, ho]
  · unfold builder_defaults
    rw [List.map_map]
    rfl
  · unfold builder_fields
    rw [List.map_map]
    rfl

end BuilderMacro
